import Mathlib

/-
Verification of the concurrent chunked-download engine (summon.go,
progress.go) against its natural-language specification.

The Go code is shallowly embedded: machine integers (int64/int) become Int
or Nat, chunk part files become lists of bytes with an explicit cursor, the
per-goroutine synchronisation skeleton of `process` becomes an explicit
event trace, and the response body of a ranged GET becomes the list of
results its successive Read calls produce.  Everything is executable so
that concrete witnesses can be checked by evaluation.
-/

namespace Summon

/-- Error values the engine can produce.  `eof` stands for Go's io.EOF
sentinel, `gracefulShutdown` for ErrGracefulShutdown (declared outside the
provided sources but returned by getDataAndWriteToFile in summon.go),
`chunkHandleNil` for the "got chunk handle nil" failure of combineChunks,
`unexpectedStatus` for the "did not get 20X status code" failure of
downloadFileForRange, and `ioFailure` for any other transport or file
error. -/
inductive GoError where
  | eof
  | gracefulShutdown
  | unexpectedStatus (code : Int)
  | chunkHandleNil
  | ioFailure
  deriving DecidableEq, Repr

/-- A chunk part file (one *os.File of fileDetails.chunks): its byte
content together with the shared read/write cursor, which the fetcher
leaves at end-of-write. -/
structure ChunkFile where
  content : List Nat
  cursor : Nat
  deriving DecidableEq, Repr

/-- handle.Seek(0, 0) in combineChunks: move the cursor to offset 0. -/
def seekStart (f : ChunkFile) : ChunkFile :=
  { f with cursor := 0 }

/-- io.Copy(tempOutFile, handle): the bytes transferred, namely everything
from the current cursor to the end of the file. -/
def copyFrom (f : ChunkFile) : List Nat :=
  f.content.drop f.cursor

/-- Observable events of the supervisor, the renderer and the combiner, in
the order the sequentialised synchronisation skeleton of `process`
produces them: wg.Wait() returning is `fetchersJoined`, the send on the
renderer stop channel is `stopSent`, each line printed by the final render
is `renderLine i`, pWg.Wait() returning is `rendererJoined`, each io.Copy
of combineChunks is `copyChunk i`, and os.Rename of the temp file is
`renameTemp`. -/
inductive Ev where
  | fetchersJoined
  | stopSent
  | renderLine (i : Nat)
  | rendererJoined
  | copyChunk (i : Nat)
  | renameTemp
  deriving DecidableEq, Repr

/-- Loop body of combineChunks in summon.go: for the given ascending list
of indices, look each chunk handle up in the map, fail with the
"got chunk handle nil" error when it is absent, otherwise seek the handle
to offset 0 and copy the entire file onto the accumulated temp-file
content.  Returns the copy events together with either the final temp-file
content or the error. -/
def combineLoop (chunks : Nat → Option ChunkFile) :
    List Nat → List Nat → List Ev × Except GoError (List Nat)
  | acc, [] => ([], .ok acc)
  | acc, i :: rest =>
    match chunks i with
    | none => ([], .error .chunkHandleNil)
    | some h =>
      let r := combineLoop chunks (acc ++ copyFrom (seekStart h)) rest
      (.copyChunk i :: r.1, r.2)

/-- combineChunks from summon.go: run the copy loop over the indices
0 .. len(chunks)-1 in ascending order and, only after every copy has
succeeded, rename the temp file onto the final destination path as the
very last step. -/
def combineChunks (chunks : Nat → Option ChunkFile) (n : Nat) (temp : List Nat) :
    List Ev × Except GoError (List Nat) :=
  let r := combineLoop chunks temp (List.range n)
  match r.2 with
  | .ok out => (r.1 ++ [.renameTemp], .ok out)
  | .error e => (r.1, .error e)

/-- State of a download job once all fetchers have terminated: the recorded
job-level error (sum.err), the chunk-handle map with its size, the current
content of the temp output file, and the size of the progress map the
renderer iterates over. -/
structure Job where
  err : Option GoError
  chunks : Nat → Option ChunkFile
  numChunks : Nat
  temp : List Nat
  progressCount : Nat

/-- The final frame the renderer draws when it receives the stop signal:
one line per index, ascending (stop branch of startProgressBar). -/
def finalRender (n : Nat) : List Ev :=
  (List.range n).map Ev.renderLine

/-- process from summon.go, sequentialised along its synchronisation
skeleton: wg.Wait() joins all fetchers, the stop signal is sent to the
renderer, the renderer draws its final frame and terminates, pWg.Wait()
collects that termination, and only then, when no error was recorded, the
chunks are combined; a recorded error is returned instead and skips
combination. -/
def process (job : Job) : List Ev × Except GoError (List Nat) :=
  let pre := Ev.fetchersJoined :: Ev.stopSent ::
    (finalRender job.progressCount ++ [Ev.rendererJoined])
  match job.err with
  | some e => (pre, .error e)
  | none =>
    let c := combineChunks job.chunks job.numChunks job.temp
    (pre ++ c.1, c.2)

lemma combineLoop_ok (chunks : Nat → Option ChunkFile) (f : Nat → ChunkFile) :
    ∀ (is : List Nat) (acc : List Nat), (∀ i ∈ is, chunks i = some (f i)) →
      combineLoop chunks acc is =
        (is.map Ev.copyChunk, .ok (acc ++ (is.map fun i => (f i).content).flatten)) := by
  intro is
  induction is with
  | nil => intro acc _; simp [combineLoop]
  | cons i rest ih =>
    intro acc h
    have hi : chunks i = some (f i) := h i (by simp)
    have hrest : ∀ j ∈ rest, chunks j = some (f j) := fun j hj => h j (by simp [hj])
    simp only [combineLoop, hi, ih (acc ++ copyFrom (seekStart (f i))) hrest]
    simp [copyFrom, seekStart, List.flatten]

lemma combineLoop_missing (chunks : Nat → Option ChunkFile) :
    ∀ (is : List Nat) (acc : List Nat), (∃ i ∈ is, chunks i = none) →
      (combineLoop chunks acc is).2 = .error .chunkHandleNil := by
  intro is
  induction is with
  | nil => intro acc h; simp at h
  | cons i rest ih =>
    intro acc h
    cases hi : chunks i with
    | none => simp [combineLoop, hi]
    | some v =>
      obtain ⟨j, hj, hnone⟩ := h
      rcases List.mem_cons.1 hj with rfl | hjr
      · rw [hi] at hnone; cases hnone
      · simp [combineLoop, hi, ih _ ⟨j, hjr, hnone⟩]

/-- C1: for a job whose chunk files are indexed 0..N-1, combineChunks
copies the chunk files into the temporary output strictly in ascending
index order, seeking each chunk file to offset 0 first (the incoming
cursors are arbitrary and do not influence the output), so the temp output
is exactly its previous content followed by the concatenation of the chunk
contents in index order; and it fails when any index below N has no chunk
handle. -/
theorem combineChunks_concat_in_index_order (chunks : Nat → Option ChunkFile)
    (f : Nat → ChunkFile) (n : Nat) (temp : List Nat) :
    ((∀ i, i < n → chunks i = some (f i)) →
      (combineChunks chunks n temp).2 =
        .ok (temp ++ ((List.range n).map fun i => (f i).content).flatten)) ∧
    ((∃ i, i < n ∧ chunks i = none) →
      (combineChunks chunks n temp).2 = .error .chunkHandleNil) := by
  constructor
  · intro h
    have := combineLoop_ok chunks f (List.range n) temp
      (fun i hi => h i (List.mem_range.1 hi))
    simp [combineChunks, this]
  · rintro ⟨i, hi, hnone⟩
    have := combineLoop_missing chunks (List.range n) temp
      ⟨i, List.mem_range.2 hi, hnone⟩
    simp only [combineChunks]
    rw [this]

/-- Witness for C1 at a concrete job: two chunks whose cursors sit at
end-of-write get combined into their full concatenation, and a job with a
missing index-1 handle fails. -/
theorem combineChunks_concat_in_index_order_witness :
    (combineChunks
        (fun i => if i = 0 then some ⟨[10, 11], 2⟩ else
          if i = 1 then some ⟨[12], 1⟩ else none)
        2 []).2 = .ok [10, 11, 12] ∧
    (combineChunks (fun i => if i = 0 then some ⟨[10, 11], 2⟩ else none)
        2 []).2 = .error .chunkHandleNil := by
  constructor
  · have h := (combineChunks_concat_in_index_order
      (fun i => if i = 0 then some ⟨[10, 11], 2⟩ else
        if i = 1 then some ⟨[12], 1⟩ else none)
      (fun i => if i = 0 then ⟨[10, 11], 2⟩ else ⟨[12], 1⟩) 2 []).1 (by decide)
    simpa using h
  · exact (combineChunks_concat_in_index_order
      (fun i => if i = 0 then some ⟨[10, 11], 2⟩ else none)
      (fun _ => ⟨[], 0⟩) 2 []).2 ⟨1, by decide, by decide⟩

lemma combineLoop_events (chunks : Nat → Option ChunkFile) :
    ∀ (is : List Nat) (acc : List Nat) (e : Ev), e ∈ (combineLoop chunks acc is).1 →
      ∃ k, e = Ev.copyChunk k := by
  intro is
  induction is with
  | nil => intro acc e h; simp [combineLoop] at h
  | cons i rest ih =>
    intro acc e h
    cases hi : chunks i with
    | none => simp [combineLoop, hi] at h
    | some v =>
      simp only [combineLoop, hi, List.mem_cons] at h
      rcases h with rfl | h
      · exact ⟨i, rfl⟩
      · exact ih _ e h

/-- Events the combiner can emit are copies and the final rename only. -/
lemma combineChunks_events (chunks : Nat → Option ChunkFile) (n : Nat) (temp : List Nat)
    (e : Ev) (h : e ∈ (combineChunks chunks n temp).1) :
    (∃ k, e = Ev.copyChunk k) ∨ e = Ev.renameTemp := by
  simp only [combineChunks] at h
  split at h
  · rcases List.mem_append.1 h with h | h
    · exact .inl (combineLoop_events chunks _ _ e h)
    · exact .inr (by simpa using h)
  · exact .inl (combineLoop_events chunks _ _ e h)

/-- C2: when any fetcher has recorded a job-level error, process skips
combination entirely — the recorded error is returned to the caller and no
rename event ever occurs in the run's trace, so the final destination file
is left untouched; moreover, whenever a combine does succeed, the rename
is its very last step. -/
theorem process_error_skips_rename (job : Job) (e : GoError) (h : job.err = some e) :
    (process job).2 = .error e ∧
    Ev.renameTemp ∉ (process job).1 ∧
    (∀ evs out, combineChunks job.chunks job.numChunks job.temp = (evs, .ok out) →
      evs.getLast? = some Ev.renameTemp) := by
  refine ⟨by simp [process, h], ?_, ?_⟩
  · simp [process, h, finalRender]
  · intro evs out hc
    simp only [combineChunks] at hc
    split at hc
    · injection hc with h1 h2
      rw [← h1]
      exact List.getLast?_concat _
    · injection hc with h1 h2
      cases h2

/-- A concrete failed job used to witness C2: two chunks, an ioFailure
recorded at the job level, one progress entry. -/
def failedJob : Job :=
  { err := some .ioFailure, chunks := fun _ => none, numChunks := 2, temp := [], progressCount := 1 }

/-- Witness for C2 at a concrete job whose recorded error is ioFailure. -/
theorem process_error_skips_rename_witness :
    (process failedJob).2 = .error .ioFailure ∧
    Ev.renameTemp ∉ (process failedJob).1 := by
  have h := process_error_skips_rename failedJob .ioFailure rfl
  exact ⟨h.1, h.2.1⟩

/-- Tail of the process trace after the renderer has acknowledged: empty
when an error was recorded, otherwise the combiner's events. -/
def combineTail (job : Job) : List Ev :=
  match job.err with
  | some _ => []
  | none => (combineChunks job.chunks job.numChunks job.temp).1

lemma process_trace (job : Job) :
    (process job).1 = Ev.fetchersJoined :: Ev.stopSent ::
      (finalRender job.progressCount ++ Ev.rendererJoined :: combineTail job) := by
  cases h : job.err <;> simp [process, h, combineTail]

lemma finalRender_length (n : Nat) : (finalRender n).length = n := by
  simp [finalRender]

lemma renderLine_not_mem_combineTail (job : Job) (i : Nat) :
    Ev.renderLine i ∉ combineTail job := by
  intro hmem
  cases h : job.err with
  | some e => simp [combineTail, h] at hmem
  | none =>
    simp only [combineTail, h] at hmem
    rcases combineChunks_events job.chunks job.numChunks job.temp _ hmem with ⟨k, hk⟩ | hk
    · cases hk
    · cases hk

/-- C8: in every run, the renderer's stop signal is sent only after all
fetch tasks have joined, the supervisor waits for the renderer's own
termination acknowledgment before proceeding, and on the stop signal the
renderer redraws every chunk's line exactly once more — the render events
sit between the stop signal and the acknowledgment, one per index in
ascending order, and no render event occurs anywhere else in the trace. -/
theorem stop_after_join_before_renderer_ack (job : Job) :
    (process job).1[0]? = some Ev.fetchersJoined ∧
    (process job).1[1]? = some Ev.stopSent ∧
    (∀ i, i < job.progressCount →
      (process job).1[2 + i]? = some (Ev.renderLine i)) ∧
    (process job).1[2 + job.progressCount]? = some Ev.rendererJoined ∧
    (∀ j i, (process job).1[j]? = some (Ev.renderLine i) →
      j = 2 + i ∧ i < job.progressCount) := by
  rw [process_trace job]
  refine ⟨by simp, by simp, ?_, ?_, ?_⟩
  · intro i hi
    have h2 : 2 + i = i + 1 + 1 := by omega
    rw [h2, List.getElem?_cons_succ, List.getElem?_cons_succ, List.getElem?_append]
    simp [finalRender, List.getElem?_map, List.getElem?_range, hi, finalRender_length]
  · have h2 : 2 + job.progressCount = job.progressCount + 1 + 1 := by omega
    rw [h2, List.getElem?_cons_succ, List.getElem?_cons_succ, List.getElem?_append]
    simp [finalRender_length]
  · intro j i hj
    rcases j with _ | _ | k
    · simp at hj
    · simp at hj
    · rw [List.getElem?_cons_succ, List.getElem?_cons_succ, List.getElem?_append] at hj
      by_cases hk : k < job.progressCount
      · rw [if_pos (by simpa [finalRender_length] using hk)] at hj
        simp only [finalRender, List.getElem?_map, List.getElem?_range, hk,
          if_pos, Option.map_some] at hj
        injection hj with hj
        cases hj
        exact ⟨by omega, hk⟩
      · rw [if_neg (by simpa [finalRender_length] using hk)] at hj
        rw [finalRender_length] at hj
        rcases hd : k - job.progressCount with _ | m
        · rw [hd] at hj; simp at hj
        · rw [hd, List.getElem?_cons_succ] at hj
          exact absurd (List.getElem?_mem hj) (renderLine_not_mem_combineTail job i)

/-- A concrete successful job used to witness C8: no recorded error, no
chunks, two progress entries. -/
def emptyOkJob : Job :=
  { err := none, chunks := fun _ => none, numChunks := 0, temp := [], progressCount := 2 }

/-- Witness for C8 at a concrete job with two progress entries. -/
theorem stop_after_join_before_renderer_ack_witness :
    (process emptyOkJob).1[0]? = some Ev.fetchersJoined ∧
    (process emptyOkJob).1[2]? = some (Ev.renderLine 0) ∧
    (process emptyOkJob).1[4]? = some Ev.rendererJoined := by
  have h := stop_after_join_before_renderer_ack emptyOkJob
  exact ⟨h.1, by simpa using h.2.2.1 0 (by decide), by simpa using h.2.2.2.1⟩

/-- One result of a body.Read call into the 500-byte buffer: the bytes
delivered (at most 500 of them) and the error value returned alongside
them — Go's io.Reader may deliver bytes and an error in the same call. -/
structure ReadStep where
  data : List Nat
  err : Option GoError
  deriving DecidableEq, Repr

/-- The chunk file seen as an io.Writer.  A healthy sink appends the bytes;
a failing sink drops them and returns an error.  summon.go discards both
return values of f.Write, which the theorems below make observable. -/
structure Sink where
  content : List Nat
  failing : Bool
  deriving DecidableEq, Repr

def Sink.write (s : Sink) (bs : List Nat) : Sink × Option GoError :=
  if s.failing then (s, some .ioFailure)
  else ({ s with content := s.content ++ bs }, none)

/-- One entry of the progress map: bytes read so far and the chunk's
planned byte count. -/
structure Progress where
  curr : Int
  total : Int
  deriving DecidableEq, Repr

/-- readBody from summon.go: perform one Read; when r is positive, write
the r bytes to the file (the result of f.Write is discarded) and add r to
this chunk's progress counter under the progress lock; return the Read
error unchanged. -/
def readBody (st : Sink × Progress) (step : ReadStep) : (Sink × Progress) × Option GoError :=
  if step.data.length > 0 then
    (((st.1.write step.data).1,
      { st.2 with curr := st.2.curr + step.data.length }), step.err)
  else
    (st, step.err)

/-- Result of one chunk fetch's read loop. -/
inductive FetchResult where
  | success
  | shutdown
  | failed (e : GoError)
  deriving DecidableEq, Repr

/-- Whether the stop channel has a value available at iteration `iter`:
the signal, sent once at iteration `stopAt`, stays available from then on
until the select receives it. -/
def stopSet (stopAt : Option Nat) (iter : Nat) : Bool :=
  match stopAt with
  | none => false
  | some k => k ≤ iter

/-- The read loop of getDataAndWriteToFile from summon.go: before every
read iteration the select polls the stop channel and, when it is set,
returns ErrGracefulShutdown at once without touching the file or the
progress counter again.  Otherwise one readBody step runs: io.EOF ends the
loop with success, any other non-nil error is returned immediately (no
retry), and an exhausted body reads as (0, io.EOF). -/
def getDataAndWriteToFile (stopAt : Option Nat) :
    Nat → Sink × Progress → List ReadStep → (Sink × Progress) × FetchResult
  | iter, st, [] => if stopSet stopAt iter then (st, .shutdown) else (st, .success)
  | iter, st, step :: rest =>
    if stopSet stopAt iter then (st, .shutdown)
    else
      match readBody st step with
      | (st2, some .eof) => (st2, .success)
      | (st2, some e) => (st2, .failed e)
      | (st2, none) => getDataAndWriteToFile stopAt (iter + 1) st2 rest

/-- Outcome of downloadFileForRange: the final chunk file and progress
entry, the error recorded in sum.err (if any), and whether the fetch got
as far as reading the response body. -/
structure FetchOutcome where
  sink : Sink
  prog : Progress
  jobErr : Option GoError
  bodyRead : Bool
  deriving DecidableEq, Repr

/-- downloadFileForRange from summon.go, from the point where the ranged
GET's response is available: a status other than 200 and 206 records the
"did not get 20X status code" error carrying the received status in
sum.err and aborts before reading the body; an accepted status streams the
body, and any non-nil result of getDataAndWriteToFile — ErrGracefulShutdown
included — is recorded in sum.err. -/
def downloadFileForRange (stopAt : Option Nat) (status : Int) (body : List ReadStep)
    (st : Sink × Progress) : FetchOutcome :=
  if status ≠ 200 ∧ status ≠ 206 then
    { sink := st.1, prog := st.2, jobErr := some (.unexpectedStatus status), bodyRead := false }
  else
    match getDataAndWriteToFile stopAt 0 st body with
    | (st2, .success) => { sink := st2.1, prog := st2.2, jobErr := none, bodyRead := true }
    | (st2, .shutdown) =>
      { sink := st2.1, prog := st2.2, jobErr := some .gracefulShutdown, bodyRead := true }
    | (st2, .failed e) => { sink := st2.1, prog := st2.2, jobErr := some e, bodyRead := true }

/-- Modelled from the spec: the job-failed report of the CLI layer (main),
which is not under src/.  Per the spec, GracefulShutdownError is an
externally requested cancellation, "not a failure of the job", and
"suppresses the job failed report"; every other recorded error is
reported. -/
def reportsJobFailed (e : Option GoError) : Bool :=
  match e with
  | none => false
  | some .gracefulShutdown => false
  | some _ => true

lemma getData_shutdown (stopAt : Option Nat) (iter : Nat) (st : Sink × Progress)
    (body : List ReadStep) (h : stopSet stopAt iter = true) :
    getDataAndWriteToFile stopAt iter st body = (st, .shutdown) := by
  cases body <;> simp [getDataAndWriteToFile, h]

/-- C3: the cancellation signal is polled before each read iteration — at
any iteration boundary where it is set, the fetcher stops immediately with
GracefulShutdownError, leaving file and progress as they are; an accepted
fetch interrupted this way records gracefulShutdown, and that recorded
value does not trigger the job-failed report. -/
theorem stop_checked_before_each_read (stopAt : Option Nat) (iter : Nat)
    (st : Sink × Progress) (body : List ReadStep) (h : stopSet stopAt iter = true) :
    getDataAndWriteToFile stopAt iter st body = (st, .shutdown) ∧
    (∀ (status : Int) (body2 : List ReadStep) (st2 : Sink × Progress),
      (status = 200 ∨ status = 206) → stopSet stopAt 0 = true →
        (downloadFileForRange stopAt status body2 st2).jobErr = some .gracefulShutdown) ∧
    reportsJobFailed (some .gracefulShutdown) = false := by
  refine ⟨getData_shutdown stopAt iter st body h, ?_, rfl⟩
  intro status body2 st2 hs h0
  have hns : ¬(status ≠ 200 ∧ status ≠ 206) := by
    rcases hs with rfl | rfl <;> simp
  simp [downloadFileForRange, hns, getData_shutdown stopAt 0 st2 body2 h0]

/-- Witness for C3: the signal is already set when a 206 fetch starts, so
the loop stops at once with untouched state and the recorded error is the
suppressed gracefulShutdown. -/
theorem stop_checked_before_each_read_witness :
    getDataAndWriteToFile (some 0) 0 (⟨[], false⟩, ⟨0, 9⟩) [⟨[1, 2], none⟩] =
      ((⟨[], false⟩, ⟨0, 9⟩), .shutdown) ∧
    (downloadFileForRange (some 0) 206 [⟨[1, 2], none⟩]
      (⟨[], false⟩, ⟨0, 9⟩)).jobErr = some .gracefulShutdown ∧
    reportsJobFailed (some .gracefulShutdown) = false := by
  have h := stop_checked_before_each_read (some 0) 0 (⟨[], false⟩, ⟨0, 9⟩)
    [⟨[1, 2], none⟩] (by decide)
  exact ⟨h.1, h.2.1 206 [⟨[1, 2], none⟩] (⟨[], false⟩, ⟨0, 9⟩) (.inr rfl) (by decide), h.2.2⟩

/-- Total number of bytes a body delivers over all its reads. -/
def bodyBytes (body : List ReadStep) : Nat :=
  (body.map fun s => s.data.length).sum

lemma readBody_curr_bounds (st : Sink × Progress) (step : ReadStep) :
    st.2.curr ≤ (readBody st step).1.2.curr ∧
    (readBody st step).1.2.curr ≤ st.2.curr + step.data.length ∧
    (readBody st step).1.2.total = st.2.total := by
  by_cases h : step.data.length > 0
  · simp only [readBody, if_pos h]
    refine ⟨by simp, by simp, trivial⟩
  · simp only [readBody, if_neg h]
    exact ⟨le_refl _, by omega, trivial⟩

lemma getData_curr_bounds (stopAt : Option Nat) :
    ∀ (body : List ReadStep) (iter : Nat) (st : Sink × Progress),
      st.2.curr ≤ (getDataAndWriteToFile stopAt iter st body).1.2.curr ∧
      (getDataAndWriteToFile stopAt iter st body).1.2.curr ≤ st.2.curr + bodyBytes body ∧
      (getDataAndWriteToFile stopAt iter st body).1.2.total = st.2.total := by
  intro body
  induction body with
  | nil =>
    intro iter st
    by_cases h : stopSet stopAt iter = true <;> simp [getDataAndWriteToFile, h]
  | cons step rest ih =>
    intro iter st
    have hbbN : bodyBytes (step :: rest) = step.data.length + bodyBytes rest := by
      simp [bodyBytes]
    by_cases h : stopSet stopAt iter = true
    · simp only [getDataAndWriteToFile, if_pos h]
      exact ⟨le_refl _, by omega, trivial⟩
    · rcases hr : readBody st step with ⟨st2, err⟩
      have h1 : (readBody st step).1 = st2 := by rw [hr]
      obtain ⟨hm, hu, ht⟩ := readBody_curr_bounds st step
      rw [h1] at hm hu ht
      obtain ⟨ihm, ihu, iht⟩ := ih (iter + 1) st2
      rcases err with _ | e
      · simp only [getDataAndWriteToFile, if_neg h, hr]
        exact ⟨le_trans hm ihm, by omega, by rw [iht, ht]⟩
      · cases e <;> simp only [getDataAndWriteToFile, if_neg h, hr] <;>
          exact ⟨hm, by omega, ht⟩

/-- C5 (amended): across a chunk fetch's read loop the progress counter is
only ever increased — each state the loop passes through is itself an
invocation of this loop, so the bound applies at all times — and it stays
nonnegative from a nonnegative seed; the upper bound curr ≤ total holds
provided the body delivers no more than the remaining planned bytes (the
code itself never clamps curr against total). -/
theorem progress_counter_monotone (stopAt : Option Nat) (iter : Nat)
    (st : Sink × Progress) (body : List ReadStep) (h0 : 0 ≤ st.2.curr)
    (hb : st.2.curr + bodyBytes body ≤ st.2.total) :
    st.2.curr ≤ (getDataAndWriteToFile stopAt iter st body).1.2.curr ∧
    0 ≤ (getDataAndWriteToFile stopAt iter st body).1.2.curr ∧
    (getDataAndWriteToFile stopAt iter st body).1.2.curr ≤
      (getDataAndWriteToFile stopAt iter st body).1.2.total := by
  obtain ⟨hm, hu, ht⟩ := getData_curr_bounds stopAt body iter st
  exact ⟨hm, by omega, by omega⟩

/-- Witness for C5's amended statement: a two-byte body on a chunk with
two remaining planned bytes keeps 0 ≤ curr ≤ total. -/
theorem progress_counter_monotone_witness :
    (0 : Int) ≤ (getDataAndWriteToFile none 0 (⟨[], false⟩, ⟨0, 2⟩)
      [⟨[7, 8], some .eof⟩]).1.2.curr ∧
    (getDataAndWriteToFile none 0 (⟨[], false⟩, ⟨0, 2⟩)
      [⟨[7, 8], some .eof⟩]).1.2.curr ≤
    (getDataAndWriteToFile none 0 (⟨[], false⟩, ⟨0, 2⟩)
      [⟨[7, 8], some .eof⟩]).1.2.total := by
  have h := progress_counter_monotone none 0 (⟨[], false⟩, ⟨0, 2⟩)
    [⟨[7, 8], some .eof⟩] (by decide) (by decide)
  exact ⟨h.2.1, h.2.2⟩

/-- Counterexample to C5 as stated: nothing stops a body from delivering
more bytes than the chunk's planned count (a 200 response to a ranged GET
carries the whole file), and then curr exceeds total: a two-byte body on a
chunk whose total is 1 drives curr to 2. -/
theorem progress_counter_exceeds_total :
    (getDataAndWriteToFile none 0 (⟨[], false⟩, ⟨0, 1⟩)
      [⟨[7, 8], some .eof⟩]).1.2 = ⟨2, 1⟩ ∧
    ¬((getDataAndWriteToFile none 0 (⟨[], false⟩, ⟨0, 1⟩)
      [⟨[7, 8], some .eof⟩]).1.2.curr ≤
      (getDataAndWriteToFile none 0 (⟨[], false⟩, ⟨0, 1⟩)
        [⟨[7, 8], some .eof⟩]).1.2.total) := by
  constructor <;> decide

/-- C6: readBody discards both return values of f.Write, so a write
failure is silently ignored: on a sink whose every write fails, a
three-byte read followed by end-of-stream still returns success, the
progress counter still advances by 3, and the sink holds no bytes at all —
while the sink's write does report an error that the code never checks.
With reads the code is as specified: a non-EOF read error is returned
immediately, EOF alone yields success. -/
theorem write_error_ignored_returns_success :
    getDataAndWriteToFile none 0 (⟨[], true⟩, ⟨0, 3⟩)
      [⟨[1, 2, 3], none⟩, ⟨[], some .eof⟩] = ((⟨[], true⟩, ⟨3, 3⟩), .success) ∧
    (Sink.mk [] true).write [1, 2, 3] = (⟨[], true⟩, some .ioFailure) ∧
    getDataAndWriteToFile none 0 (⟨[], false⟩, ⟨0, 3⟩)
      [⟨[1], some .ioFailure⟩] = ((⟨[1], false⟩, ⟨1, 3⟩), .failed .ioFailure) := by
  refine ⟨by decide, by decide, by decide⟩

/-- C7: a response status other than 200 and 206 aborts the fetch before
the body is read and records the unexpected-status error carrying the
received status as the job-level error; statuses 200 and 206 are the only
ones that let the fetch proceed to the body. -/
theorem only_200_206_accepted (stopAt : Option Nat) (status : Int)
    (body : List ReadStep) (st : Sink × Progress) :
    (status ≠ 200 → status ≠ 206 →
      downloadFileForRange stopAt status body st =
        { sink := st.1, prog := st.2, jobErr := some (.unexpectedStatus status),
          bodyRead := false }) ∧
    ((status = 200 ∨ status = 206) →
      (downloadFileForRange stopAt status body st).bodyRead = true) := by
  constructor
  · intro h1 h2
    simp [downloadFileForRange, h1, h2]
  · intro hs
    have hns : ¬(status ≠ 200 ∧ status ≠ 206) := by
      rcases hs with rfl | rfl <;> simp
    simp only [downloadFileForRange, if_neg hns]
    rcases hgd : getDataAndWriteToFile stopAt 0 st body with ⟨st2, r⟩
    cases r <;> simp

/-- Witness for C7: a 404 aborts with the recorded status and no body
read; a 206 proceeds to the body. -/
theorem only_200_206_accepted_witness :
    downloadFileForRange none 404 [] (⟨[], false⟩, ⟨0, 0⟩) =
      { sink := ⟨[], false⟩, prog := ⟨0, 0⟩, jobErr := some (.unexpectedStatus 404),
        bodyRead := false } ∧
    (downloadFileForRange none 206 [] (⟨[], false⟩, ⟨0, 0⟩)).bodyRead = true := by
  exact ⟨(only_200_206_accepted none 404 [] (⟨[], false⟩, ⟨0, 0⟩)).1
      (by decide) (by decide),
    (only_200_206_accepted none 206 [] (⟨[], false⟩, ⟨0, 0⟩)).2 (.inr rfl)⟩

/-- Values of Go's float64 as they arise in printProgress: a finite value,
idealised as an exact fraction num/den and kept as an explicit pair so
that everything evaluates, or NaN, or a signed infinity. -/
inductive FVal where
  | fin (num : Int) (den : Int)
  | nan
  | pinf
  | ninf
  deriving DecidableEq, Repr

/-- Rounding of the fraction a/b (with b positive) half away from zero,
the behaviour of Go's math.Round; Int division in Lean is floor division,
so for 0 ≤ a this is floor(a/b + 1/2) = (2a+b) div 2b. -/
def fracRound (a b : Int) : Int :=
  if 0 ≤ a then (2 * a + b) / (2 * b) else -((2 * -a + b) / (2 * b))

/-- Truncation of the fraction a/b (with b positive) toward zero, the
behaviour of Go's int(f) conversion on finite floats. -/
def fracTrunc (a b : Int) : Int :=
  if 0 ≤ a then a / b else -(-a / b)

/-- float64(a) / float64(b): IEEE division gives NaN for 0/0 and a signed
infinity for x/0; a finite quotient is kept exactly, with the denominator
normalised positive. -/
def fdiv (a b : Int) : FVal :=
  if b = 0 then (if a = 0 then .nan else if 0 < a then .pinf else .ninf)
  else if 0 < b then .fin a b else .fin (-a) (-b)

/-- Multiplication of a float value by a nonnegative integer constant (100
or the bar width): NaN propagates, an infinity times zero is NaN, an
infinity times a positive constant keeps its sign. -/
def fmul (x : FVal) (c : Int) : FVal :=
  match x with
  | .fin a b => .fin (a * c) b
  | .nan => .nan
  | .pinf => if c = 0 then .nan else .pinf
  | .ninf => if c = 0 then .nan else .ninf

/-- Division of a float value by the positive constant 100: NaN and the
infinities are unchanged, a finite value has its denominator scaled. -/
def fdiv100 (x : FVal) : FVal :=
  match x with
  | .fin a b => .fin a (b * 100)
  | v => v

/-- math.Round: rounds a finite value half away from zero and returns NaN
and the infinities unchanged. -/
def fround (x : FVal) : FVal :=
  match x with
  | .fin a b => .fin (fracRound a b) 1
  | v => v

/-- Go's int(f) conversion: truncation toward zero on finite values; Go
leaves the conversion of NaN and infinities unspecified, and no theorem
below depends on the 0 chosen for them here. -/
def goTrunc (x : FVal) : Int :=
  match x with
  | .fin a b => fracTrunc a b
  | _ => 0

/-- The number of filled cells the bar loop of printProgress draws: the
loop runs i over 0 ≤ i < progressSize and fills the cell whenever i ≤ n
(note: less-or-equal, not strictly-less). -/
def fillCount (n : Int) (size : Nat) : Nat :=
  ((List.range size).filter fun i : Nat => (i : Int) ≤ n).length

/-- One rendered progress line: the 1-based connection label, the percent
value printed at the end of the line, the number of filled bar cells, and
the bar width. -/
structure Line where
  connection : Int
  percent : FVal
  fill : Nat
  width : Nat
  deriving DecidableEq, Repr

/-- printProgress from progress.go, with the global progressSize passed as
the size parameter: percent := math.Round(curr/total * 100), then
n := int((percent/100) * float64(progressSize)), then a bar of
progressSize cells filled at positions i ≤ n, labeled by index+1. -/
def printProgress (size : Nat) (index : Int) (p : Progress) : Line :=
  let percent := fround (fmul (fdiv p.curr p.total) 100)
  let n := goTrunc (fmul (fdiv100 percent) (size : Int))
  { connection := index + 1, percent := percent, fill := fillCount n size, width := size }

/-- The stop branch of startProgressBar in progress.go: for ascending i
below len(p) it reads p[i] and dereferences the pointer with no nil check,
so a missing index is a nil-pointer dereference — modelled as the panic
index in the second component — and not a skipped line; the first
component holds the lines printed before any panic. -/
def renderOnStop (pm : Nat → Option Progress) (size : Nat) :
    List Nat → List Line × Option Nat
  | [] => ([], none)
  | i :: rest =>
    match pm i with
    | none => ([], some i)
    | some pr =>
      let r := renderOnStop pm size rest
      (printProgress size (i : Int) pr :: r.1, r.2)

lemma renderOnStop_dense (pm : Nat → Option Progress) (size : Nat) (pr : Nat → Progress) :
    ∀ is : List Nat, (∀ i ∈ is, pm i = some (pr i)) →
      renderOnStop pm size is =
        (is.map fun i : Nat => printProgress size (i : Int) (pr i), none) := by
  intro is
  induction is with
  | nil => intro _; simp [renderOnStop]
  | cons i rest ih =>
    intro h
    have hi : pm i = some (pr i) := h i (by simp)
    simp only [renderOnStop, hi, ih (fun j hj => h j (by simp [hj])), List.map_cons]

lemma renderOnStop_missing (pm : Nat → Option Progress) (size : Nat) :
    ∀ is : List Nat, (∃ i ∈ is, pm i = none) →
      ∃ j ∈ is, pm j = none ∧ (renderOnStop pm size is).2 = some j := by
  intro is
  induction is with
  | nil => intro h; simp at h
  | cons i rest ih =>
    intro h
    cases hi : pm i with
    | none => exact ⟨i, by simp, hi, by simp [renderOnStop, hi]⟩
    | some pr =>
      obtain ⟨j, hj, hnone⟩ := h
      rcases List.mem_cons.1 hj with rfl | hjr
      · rw [hi] at hnone; cases hnone
      · obtain ⟨k, hk, hkn, hres⟩ := ih ⟨j, hjr, hnone⟩
        exact ⟨k, by simp [hk], hkn, by simp [renderOnStop, hi, hres]⟩

lemma fracRound_nonneg (a b : Int) (ha : 0 ≤ a) (hb : 0 < b) : 0 ≤ fracRound a b := by
  rw [fracRound, if_pos ha]
  exact Int.ediv_nonneg (by omega) (by omega)

lemma fillCount_eq_min (n : Int) (hn : 0 ≤ n) :
    ∀ size : Nat, fillCount n size = min (n.toNat + 1) size := by
  intro size
  induction size with
  | zero => simp [fillCount]
  | succ s ih =>
    have hs : ((List.range s).filter fun i : Nat => (i : Int) ≤ n).length = fillCount n s := rfl
    rw [fillCount, List.range_succ, List.filter_append, List.length_append, hs, ih]
    by_cases h : (s : Int) ≤ n
    · simp only [List.filter_cons, List.filter_nil, decide_eq_true h, if_pos,
        List.length_cons, List.length_nil]
      omega
    · simp only [List.filter_cons, List.filter_nil]
      rw [if_neg (by simpa using h)]
      simp only [List.length_nil]
      omega

/-- C4 (amended): printProgress prints percent = round(curr/total * 100)
— fracRound (curr*100) total is exactly that rounding, half away from
zero — labels the line with the 1-based chunk number, and draws a bar of
progressSize cells whose filled-cell count is one MORE than
floor(percent/100 * progressSize), capped at progressSize (the loop fills
cells at positions i ≤ n, not i < n); and on the stop signal one line per
index is rendered in ascending index order. -/
theorem printProgress_round_and_fill (size : Nat) (index : Int) (curr total : Int)
    (h0 : 0 ≤ curr) (ht : 0 < total) :
    printProgress size index ⟨curr, total⟩ =
      { connection := index + 1,
        percent := .fin (fracRound (curr * 100) total) 1,
        fill := min ((fracRound (curr * 100) total * size / 100).toNat + 1) size,
        width := size } ∧
    (∀ (pm : Nat → Option Progress) (pr : Nat → Progress) (m : Nat),
      (∀ i, i < m → pm i = some (pr i)) →
      renderOnStop pm size (List.range m) =
        ((List.range m).map fun i : Nat => printProgress size (i : Int) (pr i), none)) := by
  constructor
  · have hne : total ≠ 0 := ne_of_gt ht
    have hp : 0 ≤ fracRound (curr * 100) total :=
      fracRound_nonneg _ _ (mul_nonneg h0 (by omega)) ht
    have hps : 0 ≤ fracRound (curr * 100) total * size :=
      mul_nonneg hp (by omega)
    simp only [printProgress, fdiv, if_neg hne, if_pos ht, fmul, fdiv100, fround,
      goTrunc, fracTrunc, if_pos hps, one_mul]
    rw [fillCount_eq_min _ (Int.ediv_nonneg hps (by omega))]
  · intro pm pr m h
    exact renderOnStop_dense pm size pr (List.range m)
      (fun i hi => h i (List.mem_range.1 hi))

/-- Counterexample to C4 as stated: at curr = 0, total = 100 and
progressSize = 10 the claim's filled-cell count floor(percent/100 * 10)
is 0, but the code draws 1 filled cell, because the bar loop fills cell i
whenever i ≤ n and cell 0 always satisfies 0 ≤ n here. -/
theorem printProgress_fill_not_floor :
    (printProgress 10 0 ⟨0, 100⟩).fill = 1 ∧
    (fracRound (0 * 100) 100 * 10 / 100).toNat = 0 := by
  constructor <;> decide

/-- Witness for C4's amended statement at curr = 33, total = 100,
progressSize = 10: percent 33, fill min(3+1, 10) = 4; and a dense
two-entry map renders with no panic. -/
theorem printProgress_round_and_fill_witness :
    printProgress 10 0 ⟨33, 100⟩ = ⟨1, .fin 33 1, 4, 10⟩ ∧
    (renderOnStop (fun i => if i < 2 then some ⟨1, 2⟩ else none) 10
      (List.range 2)).2 = none := by
  have h := printProgress_round_and_fill 10 0 33 100 (by decide) (by decide)
  constructor
  · rw [h.1]; decide
  · rw [h.2 (fun i => if i < 2 then some ⟨1, 2⟩ else none) (fun _ => ⟨1, 2⟩) 2
      (by decide)]

/-- C10 (amended): the renderer is well-defined only when the progress map
is dense with well-formed entries — any missing index below len(p) makes
the final render dereference nil and panic at the first such index rather
than skip a line, while a dense map renders without panic; and a
total of 0 makes printProgress produce a non-finite percentage instead of
an error: NaN when curr = 0, +Inf when curr > 0 (and -Inf when curr < 0). -/
theorem renderer_requires_dense_map (pm : Nat → Option Progress) (size m : Nat)
    (index : Int) :
    ((∃ i, i < m ∧ pm i = none) →
      ∃ j, j < m ∧ pm j = none ∧ (renderOnStop pm size (List.range m)).2 = some j) ∧
    (∀ pr : Nat → Progress, (∀ i, i < m → pm i = some (pr i)) →
      (renderOnStop pm size (List.range m)).2 = none) ∧
    (printProgress size index ⟨0, 0⟩).percent = .nan ∧
    (∀ c : Int, 0 < c → (printProgress size index ⟨c, 0⟩).percent = .pinf) ∧
    (∀ c : Int, c < 0 → (printProgress size index ⟨c, 0⟩).percent = .ninf) := by
  refine ⟨?_, ?_, ?_, ?_, ?_⟩
  · rintro ⟨i, hi, hn⟩
    obtain ⟨j, hj, hjn, hres⟩ := renderOnStop_missing pm size (List.range m)
      ⟨i, List.mem_range.2 hi, hn⟩
    exact ⟨j, List.mem_range.1 hj, hjn, hres⟩
  · intro pr h
    rw [renderOnStop_dense pm size pr (List.range m)
      (fun i hi => h i (List.mem_range.1 hi))]
  · simp [printProgress, fdiv, fmul, fround]
  · intro c hc
    simp [printProgress, fdiv, fmul, fround, hc, hc.ne']
  · intro c hc
    have h1 : ¬(0 : Int) < c := by omega
    simp [printProgress, fdiv, fmul, fround, hc.ne, h1]

/-- Counterexample to C10 as stated: with total = 0 but curr = 1 the
percentage is +Inf, not NaN — IEEE division only gives NaN for 0/0. -/
theorem percent_inf_not_nan_when_total_zero :
    (printProgress 10 0 ⟨1, 0⟩).percent = .pinf ∧ FVal.pinf ≠ FVal.nan := by
  constructor <;> decide

/-- Witness for C10's amended statement: a map missing index 0 panics at
index 0, and the 0/0 entry renders percent NaN. -/
theorem renderer_requires_dense_map_witness :
    (renderOnStop (fun _ => none) 5 (List.range 1)).2 = some 0 ∧
    (printProgress 5 0 ⟨0, 0⟩).percent = .nan := by
  have h := renderer_requires_dense_map (fun _ => none) 5 1 0
  obtain ⟨j, hj, _, hres⟩ := h.1 ⟨0, by omega, rfl⟩
  have hj0 : j = 0 := by omega
  subst hj0
  exact ⟨hres, h.2.2.1⟩

/-- setConcurrency from summon.go.  The constants DEFAULT_CONN and
MAX_CONN are declared in a source file that is not under src/, so they
are taken here as the parameters dflt and maxc; the branch structure is
exactly the source's.  Note the function has no error outcome at all: its
result is always the concurrency the job will use. -/
def setConcurrency (dflt maxc c : Int) : Int :=
  if c ≤ 0 then dflt
  else if c ≥ maxc then maxc
  else c

/-- Counterexample to C9 as stated: a requested concurrency of 0 or -1
does not fail — setConcurrency silently substitutes the default
connection count (here instantiated as 3, with MAX_CONN 16) and returns
it as the concurrency to use. -/
theorem setConcurrency_substitutes_default :
    setConcurrency 3 16 0 = 3 ∧ setConcurrency 3 16 (-1) = 3 ∧ (3 : Int) ≠ 0 := by
  refine ⟨by decide, by decide, by decide⟩

/-- C9 (amended): for a non-positive requested concurrency setConcurrency
silently substitutes DEFAULT_CONN; a request at or above MAX_CONN is
capped to MAX_CONN; anything strictly between is used as is.  No
InvalidInputError exists on this path. -/
theorem setConcurrency_defaults_and_caps (dflt maxc c : Int) :
    (c ≤ 0 → setConcurrency dflt maxc c = dflt) ∧
    (0 < c → maxc ≤ c → setConcurrency dflt maxc c = maxc) ∧
    (0 < c → c < maxc → setConcurrency dflt maxc c = c) := by
  refine ⟨?_, ?_, ?_⟩
  · intro h1
    simp [setConcurrency, h1]
  · intro h1 h2
    have hn : ¬c ≤ 0 := by omega
    simp [setConcurrency, hn, h2]
  · intro h1 h2
    have hn : ¬c ≤ 0 := by omega
    have hm : ¬c ≥ maxc := by omega
    simp [setConcurrency, hn, hm]

/-- Witness for C9's amended statement at DEFAULT_CONN = 3, MAX_CONN = 16:
concurrency -1 becomes 3, concurrency 20 becomes 16, concurrency 5 is
kept. -/
theorem setConcurrency_defaults_and_caps_witness :
    setConcurrency 3 16 (-1) = 3 ∧ setConcurrency 3 16 20 = 16 ∧
    setConcurrency 3 16 5 = 5 := by
  exact ⟨(setConcurrency_defaults_and_caps 3 16 (-1)).1 (by decide),
    (setConcurrency_defaults_and_caps 3 16 20).2.1 (by decide) (by decide),
    (setConcurrency_defaults_and_caps 3 16 5).2.2 (by decide) (by decide)⟩

end Summon
